import Mathlib

/-!
# Rollercoaster: the curve engine of `rollercoaster.c`

A shallow embedding of the spline evaluator (`calculateQ`), the frame builder
(`calculateNVW`), the curvature and tilt computation (`calculateK`,
`calculateTilt`), the start-up routine (`init`) and the animation tick
(`myTimer`), followed by the properties proved about them.

The C program keeps all of its data in global variables; here they are the
fields of `State`, and every routine maps a state to the next state.  All
arithmetic is exact arithmetic in an ordered field `K` (the rationals for
evaluation, the reals for the analytic statements); the library functions
`sqrt`, `cos` and `sin` are passed in as parameters.  A read of the control
point array outside `0 .. 17` has no defined result in C and is modelled as
failure (`none`).
-/

namespace Rollercoaster

/-- The C `struct Vector3`. -/
structure Vector3 (K : Type) where
  x : K
  y : K
  z : K

/-- The four basis weights `r3, r2, r1, r0` local to `calculateQ`. -/
structure Weights (K : Type) where
  r3 : K
  r2 : K
  r1 : K
  r0 : K

/-- The global variables of the program. -/
structure State (K : Type) where
  xMax : K
  yMax : K
  zMax : K
  theta : K
  maxHeight : K
  workTotal : K
  speed : K
  k : K
  q : Vector3 K
  qp : Vector3 K
  qpp : Vector3 K
  n : Vector3 K
  v : Vector3 K
  w : Vector3 K
  up : Vector3 K
  cEye : Vector3 K
  cLA : Vector3 K
  camera : Int
  globalu : K
  CP : Fin 18 → Vector3 K

/-- The read `CP[j]` with an `int` index: defined only for `0 <= j < 18`. -/
def readCP {K : Type} (CP : Fin 18 → Vector3 K) (j : Int) : Option (Vector3 K) :=
  if h : 0 ≤ j ∧ j < 18 then some (CP ⟨j.toNat, by omega⟩) else none

section Defs

variable {K : Type} [LinearOrderedField K]

/-- The global `cp_count = 18.0`; it is never assigned. -/
def cp_count : K := 18

/-- The values of the globals before `main` runs: static storage is zeroed,
except for the explicit initialisers `camera = 0` and `globalu = 3.0`. -/
def programStart : State K where
  xMax := 0
  yMax := 0
  zMax := 0
  theta := 0
  maxHeight := 0
  workTotal := 0
  speed := 0
  k := 0
  q := ⟨0, 0, 0⟩
  qp := ⟨0, 0, 0⟩
  qpp := ⟨0, 0, 0⟩
  n := ⟨0, 0, 0⟩
  v := ⟨0, 0, 0⟩
  w := ⟨0, 0, 0⟩
  up := ⟨0, 0, 0⟩
  cEye := ⟨0, 0, 0⟩
  cLA := ⟨0, 0, 0⟩
  camera := 0
  globalu := 3
  CP := fun _ => ⟨0, 0, 0⟩

/-- The weights of the branch `degree == 0` of `calculateQ`. -/
def weights0 (t : K) : Weights K where
  r3 := (1 / 6) * ((1 - t) * (1 - t) * (1 - t))
  r2 := (1 / 6) * ((3 * t * t * t) - (6 * t * t) + 4)
  r1 := (1 / 6) * ((-3 * t * t * t) + (3 * t * t) + (3 * t) + 1)
  r0 := (1 / 6) * (t * t * t)

/-- The weights of the branch `degree == 1` of `calculateQ`. -/
def weights1 (t : K) : Weights K where
  r3 := (-0.5) * ((1 - t) * (1 - t))
  r2 := (1.5) * (t * t) - (2 * t)
  r1 := (-1.5) * (t * t) + t + 0.5
  r0 := (0.5) * (t * t)

/-- The weights of the branch `degree == 2` of `calculateQ`. -/
def weights2 (t : K) : Weights K where
  r3 := (1 - t)
  r2 := (3 * t) - 2
  r1 := (-3 * t) + 1
  r0 := t

/-- The three weighted sums that every branch of `calculateQ` forms from the
stencil `CP[i-3], CP[i-2], CP[i-1], CP[i]`. -/
def combine (r : Weights K) (c3 c2 c1 c0 : Vector3 K) : Vector3 K where
  x := (r.r3 * c3.x) + (r.r2 * c2.x) + (r.r1 * c1.x) + (r.r0 * c0.x)
  y := (r.r3 * c3.y) + (r.r2 * c2.y) + (r.r1 * c1.y) + (r.r0 * c0.y)
  z := (r.r3 * c3.z) + (r.r2 * c2.z) + (r.r1 * c1.z) + (r.r0 * c0.z)

/-- The four reads of the stencil, in the order the C expressions make them. -/
def stencil (CP : Fin 18 → Vector3 K) (i : Int) (r : Weights K) : Option (Vector3 K) := do
  let c3 ← readCP CP (i - 3)
  let c2 ← readCP CP (i - 2)
  let c1 ← readCP CP (i - 1)
  let c0 ← readCP CP i
  pure (combine r c3 c2 c1 c0)

/-- The body of `calculateQ` after `i` and `t` have been computed. -/
def calculateQAt (i : Int) (t : K) (degree : Int) (st : State K) : Option (State K) :=
  if degree = 0 then
    (stencil st.CP i (weights0 t)).map fun p => { st with q := p }
  else if degree = 1 then
    (stencil st.CP i (weights1 t)).map fun p => { st with qp := p }
  else if degree = 2 then
    (stencil st.CP i (weights2 t)).map fun p => { st with qpp := p }
  else
    some st

/-- The routine `calculateQ(u, degree)`: `i = floor(u)`, `t = u - i`. -/
def calculateQ [FloorRing K] (u : K) (degree : Int) (st : State K) : Option (State K) :=
  let i : Int := ⌊u⌋
  let t : K := u - i
  calculateQAt i t degree st

/-- The dot product of two vectors, used to state orthogonality and length. -/
def dot (a b : Vector3 K) : K := a.x * b.x + a.y * b.y + a.z * b.z

/-- The cross product of two vectors. -/
def cross (a b : Vector3 K) : Vector3 K :=
  ⟨(a.y * b.z) - (a.z * b.y), (a.z * b.x) - (a.x * b.z), (a.x * b.y) - (a.y * b.x)⟩

/-- Rodrigues' rotation formula, in the words of the specification of the tilt:
the vector `v` rotated about the unit axis `a` by the angle whose cosine is `c`
and whose sine is `s`, that is `v c + (a × v) s + a (a · v) (1 - c)`. -/
def rodriguesRotate (c s : K) (a v : Vector3 K) : Vector3 K :=
  ⟨v.x * c + (cross a v).x * s + a.x * dot a v * (1 - c),
   v.y * c + (cross a v).y * s + a.y * dot a v * (1 - c),
   v.z * c + (cross a v).z * s + a.z * dot a v * (1 - c)⟩

/-- The routine `calculateNVW()`. -/
def calculateNVW (sqrt : K → K) (st : State K) : State K :=
  let qp := st.qp
  let up := st.up
  let n0 : Vector3 K := ⟨-qp.x, -qp.y, -qp.z⟩
  let nMagnitude := sqrt ((qp.x * qp.x) + (qp.y * qp.y) + (qp.z * qp.z))
  let n : Vector3 K := ⟨n0.x / nMagnitude, n0.y / nMagnitude, n0.z / nMagnitude⟩
  let w0 : Vector3 K :=
    ⟨(up.y * n.z) - (up.z * n.y), (up.z * n.x) - (up.x * n.z), (up.x * n.y) - (up.y * n.x)⟩
  let wMagnitude := sqrt ((w0.x * w0.x) + (w0.y * w0.y) + (w0.z * w0.z))
  let w : Vector3 K := ⟨w0.x / wMagnitude, w0.y / wMagnitude, w0.z / wMagnitude⟩
  let v : Vector3 K :=
    ⟨(n.y * w.z) - (n.z * w.y), (n.z * w.x) - (n.x * w.z), (n.x * w.y) - (n.y * w.x)⟩
  { st with n := n, w := w, v := v }

/-- The routine `calculateK(u)`. -/
def calculateK [FloorRing K] (sqrt : K → K) (u : K) (st : State K) : Option (State K) := do
  let s1 ← calculateQ u 1 st
  let s2 ← calculateQ u 2 s1
  let qp := s2.qp
  let qpp := s2.qpp
  let r := sqrt ((qp.x * qp.x) + (qp.y * qp.y) + (qp.z * qp.z))
  pure { s2 with k := if r ≤ 0.01 then 0 else ((qp.z * qpp.x) - (qp.x * qpp.z)) / (r * r * r) }

/-- The routine `calculateTilt()`. -/
def calculateTilt (cos sin : K → K) (st : State K) : State K :=
  let c := cos st.k
  let s := sin st.k
  let n := st.n
  { st with up := { st.up with
      y := ((1 - c) * n.x * n.y - s * n.z) + ((1 - c) * n.y * n.y + c)
            + ((1 - c) * n.y * n.z + s * n.x) } }

/-- The control points that `init` stores, `CP[0]` to `CP[17]`. -/
def initCP (j : Fin 18) : Vector3 K :=
  match j.val with
  | 0 => ⟨10, 10, 0⟩
  | 1 => ⟨8, 12, -3⟩
  | 2 => ⟨3, 17, -8⟩
  | 3 => ⟨-4, 17, -6⟩
  | 4 => ⟨-8, 17, -5⟩
  | 5 => ⟨-12, 20, 0⟩
  | 6 => ⟨-12, 20, 5⟩
  | 7 => ⟨-7, 30, 5⟩
  | 8 => ⟨-3, 37, 5⟩
  | 9 => ⟨-1, 37, 5⟩
  | 10 => ⟨1, 32, 5⟩
  | 11 => ⟨3, 27, 5⟩
  | 12 => ⟨5, 22, 5⟩
  | 13 => ⟨7, 17, 5⟩
  | 14 => ⟨9, 15, 5⟩
  | 15 => ⟨10, 10, 0⟩
  | 16 => ⟨8, 12, -3⟩
  | _ => ⟨3, 17, -8⟩

/-- The loop `for(i = 0; i < cp_count; i++) if(CP[i].y > maxHeight) maxHeight = CP[i].y;`
of `init`, started at index `i` with the running maximum `m`. -/
def maxHeightLoop (CP : Fin 18 → Vector3 K) (i : Nat) (m : K) : K :=
  if h : i < 18 then
    maxHeightLoop CP (i + 1) (if (CP ⟨i, h⟩).y > m then (CP ⟨i, h⟩).y else m)
  else m
termination_by 18 - i

/-- The routine `init()`. -/
def init (st : State K) : State K :=
  let CP : Fin 18 → Vector3 K := initCP
  let maxHeight := maxHeightLoop CP 0 (CP 0).y
  let workTotal := 1 * 9.81 * maxHeight
  let workTotal := workTotal + 3
  { st with CP := CP, maxHeight := maxHeight, workTotal := workTotal, globalu := 3 }

/-- The timer callback `myTimer`. -/
def myTimer [FloorRing K] (sqrt cos sin : K → K) (st : State K) : Option (State K) := do
  let globalu := st.globalu
  let s ← calculateQ globalu 0 st
  let s ← calculateQ globalu 1 s
  let s ← calculateQ globalu 2 s
  let s := { s with speed := sqrt (2 * (s.workTotal + 9.81 * s.q.y)) }
  let s ← calculateK sqrt globalu s
  let s := calculateTilt cos sin s
  let s := { s with cEye := ⟨s.q.x, (s.q.y * s.up.y) + 3, s.q.z⟩ }
  let s := { s with cLA := ⟨s.q.x + s.qp.x, s.q.y + s.qp.y, s.q.z + s.qp.z⟩ }
  let s := { s with globalu := s.globalu + 0.05 }
  let s := { s with globalu := if s.globalu ≥ cp_count then 3 else s.globalu }
  pure { s with theta := s.theta + 0.01 }

/-- The state reached from `st` by `ticks` successive executions of the timer
callback (the GLUT main loop re-arms the timer after every call). -/
def runTicks [FloorRing K] (sqrt cos sin : K → K) (st : State K) : Nat → Option (State K)
  | 0 => some st
  | ticks + 1 => (runTicks sqrt cos sin st ticks).bind (myTimer sqrt cos sin)

end Defs

/-! ## Reading the stencil -/

section Reads

variable {K : Type}

theorem readCP_of_mem (CP : Fin 18 → Vector3 K) (j : Int) (h0 : 0 ≤ j) (h1 : j < 18) :
    readCP CP j = some (CP ⟨j.toNat, by omega⟩) := by
  unfold readCP
  rw [dif_pos ⟨h0, h1⟩]

theorem readCP_natCast (CP : Fin 18 → Vector3 K) (j : Nat) (h : j < 18) :
    readCP CP (j : Int) = some (CP ⟨j, h⟩) := by
  rw [readCP_of_mem CP j (by omega) (by omega)]
  simp

end Reads

section Segments

variable {K : Type} [LinearOrderedField K]

theorem stencil_of_mem (CP : Fin 18 → Vector3 K) (i : Int) (h0 : 3 ≤ i) (h1 : i ≤ 17) :
    ∃ a b c d : Fin 18, ∀ r : Weights K,
      stencil CP i r = some (combine r (CP a) (CP b) (CP c) (CP d)) := by
  refine ⟨⟨(i - 3).toNat, by omega⟩, ⟨(i - 2).toNat, by omega⟩, ⟨(i - 1).toNat, by omega⟩,
    ⟨i.toNat, by omega⟩, fun r => ?_⟩
  unfold stencil
  rw [readCP_of_mem CP (i - 3) (by omega) (by omega), readCP_of_mem CP (i - 2) (by omega) (by omega),
    readCP_of_mem CP (i - 1) (by omega) (by omega), readCP_of_mem CP i (by omega) (by omega)]
  rfl

theorem stencil_natCast (CP : Fin 18 → Vector3 K) (i : Nat) (h0 : 3 ≤ i) (h1 : i < 18)
    (r : Weights K) :
    stencil CP (i : Int) r
      = some (combine r (CP ⟨i - 3, by omega⟩) (CP ⟨i - 2, by omega⟩) (CP ⟨i - 1, by omega⟩)
          (CP ⟨i, h1⟩)) := by
  unfold stencil
  have e3 : ((i : Int) - 3) = ((i - 3 : Nat) : Int) := by omega
  have e2 : ((i : Int) - 2) = ((i - 2 : Nat) : Int) := by omega
  have e1 : ((i : Int) - 1) = ((i - 1 : Nat) : Int) := by omega
  rw [e3, e2, e1, readCP_natCast CP (i - 3) (by omega), readCP_natCast CP (i - 2) (by omega),
    readCP_natCast CP (i - 1) (by omega), readCP_natCast CP i h1]
  rfl

theorem stencil_knot (CP : Fin 18 → Vector3 K) (i : Int) (h0 : 4 ≤ i) (h1 : i ≤ 17)
    (r s : Weights K) (h3 : r.r3 = 0) (h2 : r.r2 = s.r3) (h1r : r.r1 = s.r2) (h0r : r.r0 = s.r1)
    (hs : s.r0 = 0) :
    stencil CP (i - 1) r = stencil CP i s := by
  unfold stencil
  rw [show i - 1 - 3 = i - 4 by omega, show i - 1 - 2 = i - 3 by omega,
    show i - 1 - 1 = i - 2 by omega]
  rw [readCP_of_mem CP (i - 4) (by omega) (by omega), readCP_of_mem CP (i - 3) (by omega) (by omega),
    readCP_of_mem CP (i - 2) (by omega) (by omega), readCP_of_mem CP (i - 1) (by omega) (by omega),
    readCP_of_mem CP i (by omega) (by omega)]
  simp only [Option.bind_eq_bind, Option.some_bind, Option.pure_def, combine, h3, h2, h1r, h0r, hs,
    zero_mul, zero_add, add_zero]

theorem calculateQAt_zero (i : Int) (t : K) (st : State K) :
    calculateQAt i t 0 st = (stencil st.CP i (weights0 t)).map fun p => { st with q := p } := by
  simp [calculateQAt]

theorem calculateQAt_one (i : Int) (t : K) (st : State K) :
    calculateQAt i t 1 st = (stencil st.CP i (weights1 t)).map fun p => { st with qp := p } := by
  simp [calculateQAt]

theorem calculateQAt_two (i : Int) (t : K) (st : State K) :
    calculateQAt i t 2 st = (stencil st.CP i (weights2 t)).map fun p => { st with qpp := p } := by
  simp [calculateQAt]

variable [FloorRing K]

theorem floor_mem_of_mem (u : K) (h0 : 3 ≤ u) (h1 : u < 18) : 3 ≤ ⌊u⌋ ∧ ⌊u⌋ ≤ 17 := by
  constructor
  · exact Int.le_floor.mpr (by exact_mod_cast h0)
  · have : ⌊u⌋ < 18 := Int.floor_lt.mpr (by exact_mod_cast h1)
    omega

theorem calculateQ_intCast (i : Int) (degree : Int) (st : State K) :
    calculateQ (i : K) degree st = calculateQAt i 0 degree st := by
  unfold calculateQ
  simp

/-- C2. At every knot `u = i`, `4 <= i <= 17`, and for every order `d` in
`{0, 1, 2}`: `calculateQ(i, d)` succeeds, it is the segment body at `t = 0` on the
stencil `CP[i-3..i]`, and the segment body at `t = 1` on the stencil
`CP[i-4..i-1]` (the end of the previous segment) produces the same state. -/
theorem calculateQ_knot_continuity (st : State K) (i : Int) (h0 : 4 ≤ i) (h1 : i ≤ 17)
    (d : Int) (hd : d = 0 ∨ d = 1 ∨ d = 2) :
    (∃ s, calculateQ (i : K) d st = some s)
      ∧ calculateQ (i : K) d st = calculateQAt i 0 d st
      ∧ calculateQAt (i - 1) 1 d st = calculateQ (i : K) d st := by
  obtain ⟨a, b, c, e, hst⟩ := stencil_of_mem st.CP i (by omega) h1
  rw [calculateQ_intCast]
  refine ⟨?_, rfl, ?_⟩
  · rcases hd with rfl | rfl | rfl
    · simp [calculateQAt_zero, hst]
    · simp [calculateQAt_one, hst]
    · simp [calculateQAt_two, hst]
  · rcases hd with rfl | rfl | rfl
    · rw [calculateQAt_zero, calculateQAt_zero,
        stencil_knot st.CP i h0 h1 (weights0 1) (weights0 0) (by simp [weights0])
        (by simp [weights0]; norm_num) (by simp [weights0]; norm_num) (by simp [weights0])
        (by simp [weights0])]
    · rw [calculateQAt_one, calculateQAt_one,
        stencil_knot st.CP i h0 h1 (weights1 1) (weights1 0) (by simp [weights1])
        (by simp [weights1]; norm_num) (by simp [weights1]; norm_num) (by simp [weights1])
        (by simp [weights1])]
    · rw [calculateQAt_two, calculateQAt_two,
        stencil_knot st.CP i h0 h1 (weights2 1) (weights2 0) (by simp [weights2])
        (by simp [weights2]; norm_num) (by simp [weights2]; norm_num) (by simp [weights2])
        (by simp [weights2])]

end Segments

section Derivatives

theorem hasDerivAt_cubic (a b c d : ℝ) (f : ℝ → ℝ) (u : ℝ) (hf : HasDerivAt f 1 u) :
    HasDerivAt (fun s => a + b * f s + c * (f s * f s) + d * (f s * f s * f s))
      (b + 2 * c * f u + 3 * d * (f u * f u)) u := by
  have h2 := hf.mul hf
  have h3 := h2.mul hf
  have h := (((hf.const_mul b).const_add a).add (h2.const_mul c)).add (h3.const_mul d)
  convert h using 1
  ring

theorem hasDerivAt_combine01 (A B C D : ℝ) (f : ℝ → ℝ) (u : ℝ) (hf : HasDerivAt f 1 u) :
    HasDerivAt
      (fun s => ((weights0 (f s)).r3 * A) + ((weights0 (f s)).r2 * B) + ((weights0 (f s)).r1 * C)
        + ((weights0 (f s)).r0 * D))
      (((weights1 (f u)).r3 * A) + ((weights1 (f u)).r2 * B) + ((weights1 (f u)).r1 * C)
        + ((weights1 (f u)).r0 * D)) u := by
  have h := hasDerivAt_cubic ((A + 4 * B + C) / 6) ((C - A) / 2) ((A - 2 * B + C) / 2)
    ((D - A + 3 * B - 3 * C) / 6) f u hf
  convert h using 1
  · funext s
    simp only [weights0]
    ring
  · simp only [weights1]
    norm_num
    ring

theorem hasDerivAt_combine12 (A B C D : ℝ) (f : ℝ → ℝ) (u : ℝ) (hf : HasDerivAt f 1 u) :
    HasDerivAt
      (fun s => ((weights1 (f s)).r3 * A) + ((weights1 (f s)).r2 * B) + ((weights1 (f s)).r1 * C)
        + ((weights1 (f s)).r0 * D))
      (((weights2 (f u)).r3 * A) + ((weights2 (f u)).r2 * B) + ((weights2 (f u)).r1 * C)
        + ((weights2 (f u)).r0 * D)) u := by
  have h := hasDerivAt_cubic ((C - A) / 2) (A - 2 * B + C) ((D - A + 3 * B - 3 * C) / 2) 0 f u hf
  convert h using 1
  · funext s
    simp only [weights1]
    norm_num
    ring
  · simp only [weights2]
    ring

end Derivatives

section DerivativesMain

theorem calculateQ_of_floor {K : Type} [LinearOrderedField K] [FloorRing K] (u : K) (i : Int)
    (hu : ⌊u⌋ = i) (degree : Int) (st : State K) :
    calculateQ u degree st = calculateQAt i (u - i) degree st := by
  unfold calculateQ
  simp only [hu]

/-- C1. On every segment `i`, `3 <= i <= 17`: each order-1 basis weight of
`calculateQ` is the derivative in `t` of the order-0 weight of the same name and
each order-2 weight is the derivative of the order-1 weight; and the position,
velocity and acceleration that `calculateQ(u, 0)`, `calculateQ(u, 1)` and
`calculateQ(u, 2)` store for `u` in `[i, i+1)` are given by functions `fq`,
`fqp`, `fqpp` of `u` such that, on the segment, `fqp` is the derivative of `fq`
and `fqpp` the derivative of `fqp`, component by component. -/
theorem calculateQ_derivative (st : State ℝ) (i : Int) (h0 : 3 ≤ i) (h1 : i ≤ 17) :
    (∀ t : ℝ,
        HasDerivAt (fun s => (weights0 s).r3) (weights1 t).r3 t
      ∧ HasDerivAt (fun s => (weights0 s).r2) (weights1 t).r2 t
      ∧ HasDerivAt (fun s => (weights0 s).r1) (weights1 t).r1 t
      ∧ HasDerivAt (fun s => (weights0 s).r0) (weights1 t).r0 t
      ∧ HasDerivAt (fun s => (weights1 s).r3) (weights2 t).r3 t
      ∧ HasDerivAt (fun s => (weights1 s).r2) (weights2 t).r2 t
      ∧ HasDerivAt (fun s => (weights1 s).r1) (weights2 t).r1 t
      ∧ HasDerivAt (fun s => (weights1 s).r0) (weights2 t).r0 t)
    ∧ ∃ fq fqp fqpp : ℝ → Vector3 ℝ,
        (∀ u : ℝ, u ∈ Set.Ico (i : ℝ) (i + 1) →
            calculateQ u 0 st = some { st with q := fq u }
          ∧ calculateQ u 1 st = some { st with qp := fqp u }
          ∧ calculateQ u 2 st = some { st with qpp := fqpp u })
      ∧ ∀ u : ℝ, u ∈ Set.Ico (i : ℝ) (i + 1) →
            HasDerivWithinAt (fun s => (fq s).x) (fqp u).x (Set.Ico (i : ℝ) (i + 1)) u
          ∧ HasDerivWithinAt (fun s => (fq s).y) (fqp u).y (Set.Ico (i : ℝ) (i + 1)) u
          ∧ HasDerivWithinAt (fun s => (fq s).z) (fqp u).z (Set.Ico (i : ℝ) (i + 1)) u
          ∧ HasDerivWithinAt (fun s => (fqp s).x) (fqpp u).x (Set.Ico (i : ℝ) (i + 1)) u
          ∧ HasDerivWithinAt (fun s => (fqp s).y) (fqpp u).y (Set.Ico (i : ℝ) (i + 1)) u
          ∧ HasDerivWithinAt (fun s => (fqp s).z) (fqpp u).z (Set.Ico (i : ℝ) (i + 1)) u := by
  constructor
  · intro t
    have hid : HasDerivAt (fun s : ℝ => s) 1 t := hasDerivAt_id t
    refine ⟨?_, ?_, ?_, ?_, ?_, ?_, ?_, ?_⟩
    · simpa using hasDerivAt_combine01 1 0 0 0 (fun s => s) t hid
    · simpa using hasDerivAt_combine01 0 1 0 0 (fun s => s) t hid
    · simpa using hasDerivAt_combine01 0 0 1 0 (fun s => s) t hid
    · simpa using hasDerivAt_combine01 0 0 0 1 (fun s => s) t hid
    · simpa using hasDerivAt_combine12 1 0 0 0 (fun s => s) t hid
    · simpa using hasDerivAt_combine12 0 1 0 0 (fun s => s) t hid
    · simpa using hasDerivAt_combine12 0 0 1 0 (fun s => s) t hid
    · simpa using hasDerivAt_combine12 0 0 0 1 (fun s => s) t hid
  · obtain ⟨a, b, c, d, hst⟩ := stencil_of_mem st.CP i h0 h1
    refine ⟨fun u => combine (weights0 (u - i)) (st.CP a) (st.CP b) (st.CP c) (st.CP d),
      fun u => combine (weights1 (u - i)) (st.CP a) (st.CP b) (st.CP c) (st.CP d),
      fun u => combine (weights2 (u - i)) (st.CP a) (st.CP b) (st.CP c) (st.CP d), ?_, ?_⟩
    · intro u hu
      have hfl : ⌊u⌋ = i := Int.floor_eq_iff.mpr ⟨hu.1, hu.2⟩
      rw [calculateQ_of_floor u i hfl, calculateQ_of_floor u i hfl, calculateQ_of_floor u i hfl,
        calculateQAt_zero, calculateQAt_one, calculateQAt_two, hst, hst, hst]
      exact ⟨rfl, rfl, rfl⟩
    · intro u _
      have hsub : HasDerivAt (fun s : ℝ => s - (i : ℝ)) 1 u := (hasDerivAt_id u).sub_const _
      exact ⟨(hasDerivAt_combine01 _ _ _ _ _ u hsub).hasDerivWithinAt,
        (hasDerivAt_combine01 _ _ _ _ _ u hsub).hasDerivWithinAt,
        (hasDerivAt_combine01 _ _ _ _ _ u hsub).hasDerivWithinAt,
        (hasDerivAt_combine12 _ _ _ _ _ u hsub).hasDerivWithinAt,
        (hasDerivAt_combine12 _ _ _ _ _ u hsub).hasDerivWithinAt,
        (hasDerivAt_combine12 _ _ _ _ _ u hsub).hasDerivWithinAt⟩

end DerivativesMain

section Init

variable {K : Type} [LinearOrderedField K]

theorem maxHeightLoop_initCP : maxHeightLoop (initCP : Fin 18 → Vector3 K) 0 (initCP 0).y = 37 := by
  have e : ∀ (i : Nat) (m : K) (h : i < 18),
      maxHeightLoop (initCP : Fin 18 → Vector3 K) i m
        = maxHeightLoop initCP (i + 1) (if (initCP ⟨i, h⟩ : Vector3 K).y > m then
            (initCP ⟨i, h⟩ : Vector3 K).y else m) := by
    intro i m h
    rw [maxHeightLoop, dif_pos h]
  have e18 : ∀ m : K, maxHeightLoop (initCP : Fin 18 → Vector3 K) 18 m = m := by
    intro m
    rw [maxHeightLoop, dif_neg (by omega)]
  rw [e 0 _ (by omega), e 1 _ (by omega), e 2 _ (by omega), e 3 _ (by omega), e 4 _ (by omega),
    e 5 _ (by omega), e 6 _ (by omega), e 7 _ (by omega), e 8 _ (by omega), e 9 _ (by omega),
    e 10 _ (by omega), e 11 _ (by omega), e 12 _ (by omega), e 13 _ (by omega), e 14 _ (by omega),
    e 15 _ (by omega), e 16 _ (by omega), e 17 _ (by omega), e18]
  simp only [initCP]
  norm_num

theorem init_CP (st : State K) : (init st).CP = initCP := rfl

theorem init_maxHeight (st : State K) : (init st).maxHeight = 37 := by
  show maxHeightLoop (initCP : Fin 18 → Vector3 K) 0 (initCP 0).y = 37
  exact maxHeightLoop_initCP

theorem init_workTotal (st : State K) : (init st).workTotal = 9.81 * 37 + 3 := by
  show 1 * 9.81 * maxHeightLoop (initCP : Fin 18 → Vector3 K) 0 (initCP 0).y + 3 = 9.81 * 37 + 3
  rw [maxHeightLoop_initCP]
  ring

end Init

section Concrete

variable {K : Type} [LinearOrderedField K] [FloorRing K]

theorem calculateQ_init_three (st : State K) :
    calculateQ (3 : K) 0 (init st)
      = some { init st with
          q := (combine (weights0 0) ⟨10, 10, 0⟩ ⟨8, 12, -3⟩ ⟨3, 17, -8⟩ ⟨-4, 17, -6⟩) } := by
  have h : calculateQ (((3 : Int) : K)) 0 (init st) = calculateQAt 3 0 0 (init st) :=
    calculateQ_intCast 3 0 (init st)
  rw [Int.cast_ofNat] at h
  rw [h, calculateQAt_zero, init_CP]
  have hs0 := stencil_natCast (initCP : Fin 18 → Vector3 K) 3 (by omega) (by omega) (weights0 0)
  have hs : stencil (initCP : Fin 18 → Vector3 K) (3 : Int) (weights0 0)
      = some (combine (weights0 0) ⟨10, 10, 0⟩ ⟨8, 12, -3⟩ ⟨3, 17, -8⟩ ⟨-4, 17, -6⟩) := hs0
  rw [hs]
  rfl

/-- C3 (amended). With the control points that `init` stores, `calculateQ(3.0, 0)`
succeeds and sets `q` to the order-0 combination with the weights
`(r3, r2, r1, r0) = (1/6, 4/6, 1/6, 0)` of `CP[0] = (10,10,0)`, `CP[1] = (8,12,-3)`,
`CP[2] = (3,17,-8)`, `CP[3] = (-4,17,-6)`; that position is `(7.5, 12.5, -3.33)`
to within `0.01` in each component. -/
theorem calculateQ_three_position (st : State K) :
    ∃ s : State K, calculateQ (3 : K) 0 (init st) = some s
      ∧ (weights0 (0 : K)).r3 = 1 / 6 ∧ (weights0 (0 : K)).r2 = 4 / 6
      ∧ (weights0 (0 : K)).r1 = 1 / 6 ∧ (weights0 (0 : K)).r0 = 0
      ∧ (init st).CP 0 = ⟨10, 10, 0⟩ ∧ (init st).CP 1 = ⟨8, 12, -3⟩
      ∧ (init st).CP 2 = ⟨3, 17, -8⟩ ∧ (init st).CP 3 = ⟨-4, 17, -6⟩
      ∧ s.q = combine (weights0 0) ((init st).CP 0) ((init st).CP 1) ((init st).CP 2)
          ((init st).CP 3)
      ∧ |s.q.x - 7.5| ≤ 0.01 ∧ |s.q.y - 12.5| ≤ 0.01 ∧ |s.q.z - (-3.33)| ≤ 0.01 := by
  refine ⟨_, calculateQ_init_three st, ?_, ?_, ?_, ?_, rfl, rfl, rfl, rfl, rfl, ?_, ?_, ?_⟩
  · simp [weights0]
  · simp only [weights0]
    norm_num
  · simp [weights0]
  · simp [weights0]
  · simp only [combine, weights0, abs_le]
    norm_num
  · simp only [combine, weights0, abs_le]
    norm_num
  · simp only [combine, weights0, abs_le]
    norm_num

/-- C3 (as stated). The position that `calculateQ(3.0, 0)` computes from the control
points of `init` is not within `0.01` of `(7.5, 13.5, -3.67)`: its `y` component
is more than `0.01` away from `13.5`. -/
theorem calculateQ_three_not_claimed :
    ¬ ∃ s : State ℝ, calculateQ (3 : ℝ) 0 (init programStart) = some s
        ∧ |s.q.x - 7.5| ≤ 0.01 ∧ |s.q.y - 13.5| ≤ 0.01 ∧ |s.q.z - (-3.67)| ≤ 0.01 := by
  rintro ⟨s, hs, -, hy, -⟩
  rw [calculateQ_init_three, Option.some.injEq] at hs
  subst hs
  simp only [combine, weights0, abs_le] at hy
  norm_num at hy

end Concrete

section Tick

variable {K : Type} [LinearOrderedField K] [FloorRing K]

theorem calculateQ_of_stencil (u : K) (st : State K) (c3 c2 c1 c0 : Vector3 K)
    (hst : ∀ r : Weights K, stencil st.CP ⌊u⌋ r = some (combine r c3 c2 c1 c0)) :
    calculateQ u 0 st = some { st with q := combine (weights0 (u - ⌊u⌋)) c3 c2 c1 c0 }
      ∧ calculateQ u 1 st = some { st with qp := combine (weights1 (u - ⌊u⌋)) c3 c2 c1 c0 }
      ∧ calculateQ u 2 st = some { st with qpp := combine (weights2 (u - ⌊u⌋)) c3 c2 c1 c0 } := by
  simp only [calculateQ, calculateQAt_zero, calculateQAt_one, calculateQAt_two, hst,
    Option.map_some', and_self]

theorem myTimer_of_stencil (sqrt cos sin : K → K) (st : State K) (c3 c2 c1 c0 : Vector3 K)
    (hst : ∀ r : Weights K, stencil st.CP ⌊st.globalu⌋ r = some (combine r c3 c2 c1 c0)) :
    ∃ s : State K, myTimer sqrt cos sin st = some s
      ∧ s.q = combine (weights0 (st.globalu - ⌊st.globalu⌋)) c3 c2 c1 c0
      ∧ s.qp = combine (weights1 (st.globalu - ⌊st.globalu⌋)) c3 c2 c1 c0
      ∧ s.qpp = combine (weights2 (st.globalu - ⌊st.globalu⌋)) c3 c2 c1 c0
      ∧ s.speed = sqrt (2 * (st.workTotal + 9.81 * s.q.y))
      ∧ s.k = (if sqrt ((s.qp.x * s.qp.x) + (s.qp.y * s.qp.y) + (s.qp.z * s.qp.z)) ≤ 0.01 then 0
          else ((s.qp.z * s.qpp.x) - (s.qp.x * s.qpp.z))
            / (sqrt ((s.qp.x * s.qp.x) + (s.qp.y * s.qp.y) + (s.qp.z * s.qp.z))
              * sqrt ((s.qp.x * s.qp.x) + (s.qp.y * s.qp.y) + (s.qp.z * s.qp.z))
              * sqrt ((s.qp.x * s.qp.x) + (s.qp.y * s.qp.y) + (s.qp.z * s.qp.z))))
      ∧ s.up.x = st.up.x
      ∧ s.up.y = ((1 - cos s.k) * st.n.x * st.n.y - sin s.k * st.n.z)
          + ((1 - cos s.k) * st.n.y * st.n.y + cos s.k)
          + ((1 - cos s.k) * st.n.y * st.n.z + sin s.k * st.n.x)
      ∧ s.up.z = st.up.z
      ∧ s.cEye = ⟨s.q.x, (s.q.y * s.up.y) + 3, s.q.z⟩
      ∧ s.cLA = ⟨s.q.x + s.qp.x, s.q.y + s.qp.y, s.q.z + s.qp.z⟩
      ∧ s.globalu = (if st.globalu + 0.05 ≥ 18 then 3 else st.globalu + 0.05)
      ∧ s.theta = st.theta + 0.01
      ∧ s.CP = st.CP ∧ s.workTotal = st.workTotal ∧ s.n = st.n := by
  simp only [myTimer, calculateK, calculateQ, calculateQAt_zero, calculateQAt_one,
    calculateQAt_two, hst, Option.map_some', Option.bind_eq_bind, Option.some_bind,
    Option.pure_def, calculateTilt, cp_count]
  exact ⟨_, rfl, rfl, rfl, rfl, rfl, rfl, rfl, rfl, rfl, rfl, rfl, rfl, rfl, rfl, rfl, rfl⟩

end Tick

section Domain

variable {K : Type} [LinearOrderedField K] [FloorRing K]

theorem myTimer_step (sqrt cos sin : K → K) (st : State K) (h0 : 3 ≤ st.globalu)
    (h1 : st.globalu < 18) :
    ∃ pos s : State K, calculateQ st.globalu 0 st = some pos
      ∧ myTimer sqrt cos sin st = some s ∧ s.q = pos.q ∧ s.CP = st.CP
      ∧ s.globalu = (if st.globalu + 0.05 < 18 then st.globalu + 0.05 else 3)
      ∧ 3 ≤ s.globalu ∧ s.globalu < 18 := by
  obtain ⟨hi0, hi1⟩ := floor_mem_of_mem st.globalu h0 h1
  obtain ⟨a, b, c, d, hst⟩ := stencil_of_mem st.CP _ hi0 hi1
  obtain ⟨s, hs, hq, -, -, -, -, -, -, -, -, -, hg, -, hcp, -, -⟩ :=
    myTimer_of_stencil sqrt cos sin st _ _ _ _ hst
  have hpos := (calculateQ_of_stencil st.globalu st _ _ _ _ hst).1
  have hg2 : s.globalu = (if st.globalu + 0.05 < 18 then st.globalu + 0.05 else 3) := by
    rw [hg]
    by_cases hlt : st.globalu + 0.05 < 18
    · rw [if_pos hlt, if_neg (not_le.mpr hlt)]
    · rw [if_neg hlt, if_pos (not_lt.mp hlt)]
  refine ⟨_, s, hpos, hs, hq, hcp, hg2, ?_, ?_⟩
  · rw [hg2]
    split_ifs
    · have : (0 : K) ≤ 0.05 := by norm_num
      linarith
    · exact le_refl _
  · rw [hg2]
    split_ifs with hlt
    · exact hlt
    · norm_num

theorem runTicks_in_domain (sqrt cos sin : K → K) (st : State K) (ticks : Nat) :
    ∃ s : State K, runTicks sqrt cos sin (init st) ticks = some s
      ∧ 3 ≤ s.globalu ∧ s.globalu < 18 := by
  induction ticks with
  | zero =>
    refine ⟨init st, rfl, ?_, ?_⟩
    · exact le_refl _
    · show (3 : K) < 18
      norm_num
  | succ m ih =>
    obtain ⟨s, hs, h0, h1⟩ := ih
    obtain ⟨-, s2, -, hs2, -, -, -, h20, h21⟩ := myTimer_step sqrt cos sin s h0 h1
    refine ⟨s2, ?_, h20, h21⟩
    show (runTicks sqrt cos sin (init st) m).bind (myTimer sqrt cos sin) = some s2
    rw [hs]
    exact hs2

/-- C6. The path parameter stays in `[3, 18)`: `init` sets `globalu` to `3`; from
every state with `3 <= globalu < 18` the timer callback succeeds (all its
control-point reads are in bounds), the position it leaves in `q` is the one
`calculateQ(globalu, 0)` computes at the old, in-domain `globalu`, and the new
`globalu` is `globalu + 0.05` when that is below `18` and `3` otherwise, hence
again in `[3, 18)`; so after `init` and any number of ticks `globalu` is in
`[3, 18)`. -/
theorem globalu_stays_in_domain (sqrt cos sin : K → K) :
    (∀ st : State K, (init st).globalu = 3)
    ∧ (∀ st : State K, 3 ≤ st.globalu → st.globalu < 18 →
        ∃ pos s : State K, calculateQ st.globalu 0 st = some pos
          ∧ myTimer sqrt cos sin st = some s ∧ s.q = pos.q
          ∧ s.globalu = (if st.globalu + 0.05 < 18 then st.globalu + 0.05 else 3)
          ∧ 3 ≤ s.globalu ∧ s.globalu < 18)
    ∧ (∀ (st : State K) (ticks : Nat),
        ∃ s : State K, runTicks sqrt cos sin (init st) ticks = some s
          ∧ 3 ≤ s.globalu ∧ s.globalu < 18) := by
  refine ⟨fun _ => rfl, ?_, runTicks_in_domain sqrt cos sin⟩
  intro st h0 h1
  obtain ⟨pos, s, hp, hs, hq, -, hg, hlo, hhi⟩ := myTimer_step sqrt cos sin st h0 h1
  exact ⟨pos, s, hp, hs, hq, hg, hlo, hhi⟩

end Domain

section Radicand

variable {K : Type} [LinearOrderedField K]

theorem initCP_y_ge (j : Fin 18) : (10 : K) ≤ (initCP j : Vector3 K).y := by
  fin_cases j <;> simp only [initCP] <;> norm_num

theorem weights0_convex (t : K) (h0 : 0 ≤ t) (h1 : t ≤ 1) :
    0 ≤ (weights0 t).r3 ∧ 0 ≤ (weights0 t).r2 ∧ 0 ≤ (weights0 t).r1 ∧ 0 ≤ (weights0 t).r0
      ∧ (weights0 t).r3 + (weights0 t).r2 + (weights0 t).r1 + (weights0 t).r0 = 1 := by
  have hs : 0 ≤ 1 - t := sub_nonneg.mpr h1
  have hq : 0 ≤ 1 + t - t * t := by nlinarith
  simp only [weights0]
  refine ⟨?_, ?_, ?_, ?_, ?_⟩
  · positivity
  · have : (3 * t * t * t) - (6 * t * t) + 4 = 1 + 3 * ((1 - t) * (1 + t - t * t)) := by ring
    rw [this]
    positivity
  · have : (-3 * t * t * t) + (3 * t * t) + (3 * t) + 1 = 1 + 3 * (t * (1 + t - t * t)) := by ring
    rw [this]
    positivity
  · positivity
  · ring

theorem combine_y_ge (r : Weights K) (c3 c2 c1 c0 : Vector3 K) (m : K)
    (h3 : 0 ≤ r.r3) (h2 : 0 ≤ r.r2) (h1 : 0 ≤ r.r1) (h0 : 0 ≤ r.r0)
    (hsum : r.r3 + r.r2 + r.r1 + r.r0 = 1)
    (m3 : m ≤ c3.y) (m2 : m ≤ c2.y) (m1 : m ≤ c1.y) (m0 : m ≤ c0.y) :
    m ≤ (combine r c3 c2 c1 c0).y := by
  have e3 := mul_le_mul_of_nonneg_left m3 h3
  have e2 := mul_le_mul_of_nonneg_left m2 h2
  have e1 := mul_le_mul_of_nonneg_left m1 h1
  have e0 := mul_le_mul_of_nonneg_left m0 h0
  have hm : m = r.r3 * m + r.r2 * m + r.r1 * m + r.r0 * m := by
    rw [← add_mul, ← add_mul, ← add_mul, hsum, one_mul]
  simp only [combine]
  linarith

variable [FloorRing K]

/-- C7. With the control points and `workTotal` that `init` computes
(`maxHeight = 37`, `workTotal = 9.81 * 37 + 3`), for every `u` in `[3, 18)`
`calculateQ(u, 0)` succeeds, the height `q.y` it stores is at least `10`, and
the radicand `workTotal + 9.81 * q.y` of the speed formula is non-negative;
when `u` is the current `globalu`, the timer callback takes the square root of
twice exactly that radicand. -/
theorem speed_radicand_nonneg (st0 st : State K) (u : K) (hCP : st.CP = (init st0).CP)
    (hW : st.workTotal = (init st0).workTotal) (h0 : 3 ≤ u) (h1 : u < 18) :
    (init st0).maxHeight = 37 ∧ st.workTotal = 9.81 * 37 + 3
      ∧ ∃ pos : State K, calculateQ u 0 st = some pos ∧ 10 ≤ pos.q.y
          ∧ 0 ≤ st.workTotal + 9.81 * pos.q.y
          ∧ ∀ sqrt cos sin : K → K, st.globalu = u →
              ∃ s : State K, myTimer sqrt cos sin st = some s
                ∧ s.speed = sqrt (2 * (st.workTotal + 9.81 * pos.q.y)) := by
  have hw : st.workTotal = 9.81 * 37 + 3 := by rw [hW, init_workTotal]
  obtain ⟨hi0, hi1⟩ := floor_mem_of_mem u h0 h1
  obtain ⟨a, b, c, d, hst⟩ := stencil_of_mem st.CP _ hi0 hi1
  have hpos := (calculateQ_of_stencil u st _ _ _ _ hst).1
  have ht0 : 0 ≤ u - ⌊u⌋ := sub_nonneg.mpr (Int.floor_le u)
  have ht1 : u - ⌊u⌋ ≤ 1 := by
    have := Int.lt_floor_add_one u
    linarith
  obtain ⟨r3, r2, r1, r0, hsum⟩ := weights0_convex (u - ⌊u⌋) ht0 ht1
  have hy : (10 : K) ≤ (combine (weights0 (u - ⌊u⌋)) (st.CP a) (st.CP b) (st.CP c) (st.CP d)).y := by
    apply combine_y_ge _ _ _ _ _ _ r3 r2 r1 r0 hsum <;> rw [hCP, init_CP] <;> exact initCP_y_ge _
  refine ⟨init_maxHeight st0, hw, _, hpos, hy, ?_, ?_⟩
  · rw [hw]
    have : (0 : K) ≤ 9.81 := by norm_num
    have := mul_nonneg this (le_trans (by norm_num : (0 : K) ≤ 10) hy)
    have h3 : (0 : K) ≤ 9.81 * 37 + 3 := by norm_num
    exact add_nonneg h3 this
  · intro sqrt cos sin hu
    subst hu
    obtain ⟨s, hs, hq, -, -, hsp, -⟩ := myTimer_of_stencil sqrt cos sin st _ _ _ _ hst
    exact ⟨s, hs, by rw [hsp, hq]⟩

end Radicand

section Frame

theorem sum_squares_pos (x y z : ℝ) (h : ¬ (x = 0 ∧ y = 0 ∧ z = 0)) :
    0 < x * x + y * y + z * z := by
  by_contra hle
  have hx := mul_self_nonneg x
  have hy := mul_self_nonneg y
  have hz := mul_self_nonneg z
  apply h
  refine ⟨mul_self_eq_zero.mp ?_, mul_self_eq_zero.mp ?_, mul_self_eq_zero.mp ?_⟩ <;> linarith

theorem frame_algebra (nx ny nz ux uy uz wm : ℝ) (hn : nx * nx + ny * ny + nz * nz = 1)
    (hwm : 0 < wm)
    (hw : wm * wm = (uy * nz - uz * ny) * (uy * nz - uz * ny)
      + (uz * nx - ux * nz) * (uz * nx - ux * nz) + (ux * ny - uy * nx) * (ux * ny - uy * nx)) :
    let n : Vector3 ℝ := ⟨nx, ny, nz⟩
    let w : Vector3 ℝ := ⟨(uy * nz - uz * ny) / wm, (uz * nx - ux * nz) / wm, (ux * ny - uy * nx) / wm⟩
    dot w w = 1 ∧ dot n w = 0 ∧ dot n (cross n w) = 0 ∧ dot w (cross n w) = 0
      ∧ dot (cross n w) (cross n w) = 1 := by
  intro n w
  have hne : wm ≠ 0 := ne_of_gt hwm
  have hww : dot w w = 1 := by
    simp only [dot, w]
    field_simp
    linarith
  have hnw : dot n w = 0 := by
    simp only [dot, n, w]
    field_simp
    ring
  have hnn : dot n n = 1 := hn
  refine ⟨hww, hnw, ?_, ?_, ?_⟩
  · simp only [dot, cross]
    ring
  · simp only [dot, cross]
    ring
  · have e : dot (cross n w) (cross n w) = dot n n * dot w w - dot n w * dot n w := by
      simp only [dot, cross]
      ring
    rw [e, hnn, hww, hnw]
    norm_num

theorem normalized_unit (x y z m : ℝ) (hm : 0 < m) (hmm : m * m = x * x + y * y + z * z) :
    (-x / m) * (-x / m) + (-y / m) * (-y / m) + (-z / m) * (-z / m) = 1 := by
  have hmne : m ≠ 0 := ne_of_gt hm
  field_simp
  linarith

theorem cross_normalized_ne_zero (ux uy uz x y z m : ℝ) (hm : 0 < m)
    (h : ¬ (uy * -z - uz * -y = 0 ∧ uz * -x - ux * -z = 0 ∧ ux * -y - uy * -x = 0)) :
    ¬ (uy * (-z / m) - uz * (-y / m) = 0 ∧ uz * (-x / m) - ux * (-z / m) = 0
      ∧ ux * (-y / m) - uy * (-x / m) = 0) := by
  have hmne : m ≠ 0 := ne_of_gt hm
  rintro ⟨e1, e2, e3⟩
  apply h
  have t1 : uy * -z - uz * -y = m * (uy * (-z / m) - uz * (-y / m)) := by
    field_simp
    ring
  have t2 : uz * -x - ux * -z = m * (uz * (-x / m) - ux * (-z / m)) := by
    field_simp
    ring
  have t3 : ux * -y - uy * -x = m * (ux * (-y / m) - uy * (-x / m)) := by
    field_simp
    ring
  rw [t1, t2, t3, e1, e2, e3, mul_zero]
  exact ⟨rfl, rfl, rfl⟩

/-- C4. For a non-zero velocity `qp` and a world-up vector `up` with
`cross(up, -qp)` non-zero, the vectors that `calculateNVW` stores are
`n = -qp / |qp|`, `w = cross(up, n) / |cross(up, n)|` and `v = cross(n, w)`, and
they form an orthonormal triad: each has length `1` and `n.w`, `n.v`, `w.v`
are all `0`. -/
theorem calculateNVW_orthonormal (st : State ℝ)
    (hqp : ¬ (st.qp.x = 0 ∧ st.qp.y = 0 ∧ st.qp.z = 0))
    (hup : ¬ ((cross st.up ⟨-st.qp.x, -st.qp.y, -st.qp.z⟩).x = 0
      ∧ (cross st.up ⟨-st.qp.x, -st.qp.y, -st.qp.z⟩).y = 0
      ∧ (cross st.up ⟨-st.qp.x, -st.qp.y, -st.qp.z⟩).z = 0)) :
    (calculateNVW Real.sqrt st).n
        = ⟨-st.qp.x / Real.sqrt (dot st.qp st.qp), -st.qp.y / Real.sqrt (dot st.qp st.qp),
            -st.qp.z / Real.sqrt (dot st.qp st.qp)⟩
      ∧ (calculateNVW Real.sqrt st).w
        = ⟨(cross st.up (calculateNVW Real.sqrt st).n).x
              / Real.sqrt (dot (cross st.up (calculateNVW Real.sqrt st).n)
                  (cross st.up (calculateNVW Real.sqrt st).n)),
            (cross st.up (calculateNVW Real.sqrt st).n).y
              / Real.sqrt (dot (cross st.up (calculateNVW Real.sqrt st).n)
                  (cross st.up (calculateNVW Real.sqrt st).n)),
            (cross st.up (calculateNVW Real.sqrt st).n).z
              / Real.sqrt (dot (cross st.up (calculateNVW Real.sqrt st).n)
                  (cross st.up (calculateNVW Real.sqrt st).n))⟩
      ∧ (calculateNVW Real.sqrt st).v
        = cross (calculateNVW Real.sqrt st).n (calculateNVW Real.sqrt st).w
      ∧ Real.sqrt (dot (calculateNVW Real.sqrt st).n (calculateNVW Real.sqrt st).n) = 1
      ∧ Real.sqrt (dot (calculateNVW Real.sqrt st).w (calculateNVW Real.sqrt st).w) = 1
      ∧ Real.sqrt (dot (calculateNVW Real.sqrt st).v (calculateNVW Real.sqrt st).v) = 1
      ∧ dot (calculateNVW Real.sqrt st).n (calculateNVW Real.sqrt st).w = 0
      ∧ dot (calculateNVW Real.sqrt st).n (calculateNVW Real.sqrt st).v = 0
      ∧ dot (calculateNVW Real.sqrt st).w (calculateNVW Real.sqrt st).v = 0 := by
  have hS : 0 < dot st.qp st.qp := sum_squares_pos _ _ _ hqp
  have hm : 0 < Real.sqrt (dot st.qp st.qp) := Real.sqrt_pos.mpr hS
  have hmm : Real.sqrt (dot st.qp st.qp) * Real.sqrt (dot st.qp st.qp)
      = st.qp.x * st.qp.x + st.qp.y * st.qp.y + st.qp.z * st.qp.z := Real.mul_self_sqrt hS.le
  have hn := normalized_unit _ _ _ _ hm hmm
  have hW0 := cross_normalized_ne_zero st.up.x st.up.y st.up.z _ _ _ _ hm hup
  have hW := sum_squares_pos _ _ _ hW0
  have hwm := Real.sqrt_pos.mpr hW
  have hwmm := Real.mul_self_sqrt hW.le
  obtain ⟨hww, hnw, hnv, hwv, hvv⟩ := frame_algebra _ _ _ st.up.x st.up.y st.up.z _ hn hwm hwmm
  refine ⟨rfl, rfl, rfl, ?_, ?_, ?_, hnw, hnv, hwv⟩
  · rw [show dot (calculateNVW Real.sqrt st).n (calculateNVW Real.sqrt st).n = 1 from hn,
      Real.sqrt_one]
  · rw [show dot (calculateNVW Real.sqrt st).w (calculateNVW Real.sqrt st).w = 1 from hww,
      Real.sqrt_one]
  · rw [show dot (calculateNVW Real.sqrt st).v (calculateNVW Real.sqrt st).v = 1 from hvv,
      Real.sqrt_one]

end Frame

section Tilt

theorem rodriguesRotate_nominal_y (c s : ℝ) (a : Vector3 ℝ) :
    (rodriguesRotate c s a ⟨0, 1, 0⟩).y = (1 - c) * a.y * a.y + c := by
  simp only [rodriguesRotate, cross, dot]
  ring

/-- C5 (the code at the failing input). What `calculateTilt` stores in `up.y` is,
for every state, the sum of all three components of the nominal world-up
`(0,1,0)` rotated by `k` about `n`, not its `y` component; `up.x` and `up.z`
are left unchanged.  With the unit axis `n = (1,0,0)`, the angle `k = 1` and
`up = (0,1,0)` the routine stores `cos 1 + sin 1`, whereas the `y` component of
the rotated vector is `(1 - cos 1) * n.y * n.y + cos 1 = cos 1`. -/
theorem calculateTilt_sums_components :
    (∀ st : State ℝ,
        (calculateTilt Real.cos Real.sin st).up.y
            = (rodriguesRotate (Real.cos st.k) (Real.sin st.k) st.n ⟨0, 1, 0⟩).x
              + (rodriguesRotate (Real.cos st.k) (Real.sin st.k) st.n ⟨0, 1, 0⟩).y
              + (rodriguesRotate (Real.cos st.k) (Real.sin st.k) st.n ⟨0, 1, 0⟩).z
          ∧ (calculateTilt Real.cos Real.sin st).up.x = st.up.x
          ∧ (calculateTilt Real.cos Real.sin st).up.z = st.up.z)
    ∧ (calculateTilt Real.cos Real.sin
          { (programStart : State ℝ) with n := ⟨1, 0, 0⟩, k := 1, up := ⟨0, 1, 0⟩ }).up.y
        = Real.cos 1 + Real.sin 1
    ∧ (rodriguesRotate (Real.cos 1) (Real.sin 1) ⟨1, 0, 0⟩ ⟨0, 1, 0⟩ : Vector3 ℝ).y
        = (1 - Real.cos 1) * 0 * 0 + Real.cos 1
    ∧ (calculateTilt Real.cos Real.sin
          { (programStart : State ℝ) with n := ⟨1, 0, 0⟩, k := 1, up := ⟨0, 1, 0⟩ }).up.y
        ≠ (rodriguesRotate (Real.cos 1) (Real.sin 1) ⟨1, 0, 0⟩ ⟨0, 1, 0⟩ : Vector3 ℝ).y := by
  have hsin : 0 < Real.sin 1 :=
    Real.sin_pos_of_pos_of_lt_pi one_pos (by linarith [Real.pi_gt_three])
  have hcode : (calculateTilt Real.cos Real.sin
      { (programStart : State ℝ) with n := ⟨1, 0, 0⟩, k := 1, up := ⟨0, 1, 0⟩ }).up.y
        = Real.cos 1 + Real.sin 1 := by
    simp only [calculateTilt]
    ring
  refine ⟨fun st => ⟨?_, rfl, rfl⟩, hcode, ?_, ?_⟩
  · simp only [calculateTilt, rodriguesRotate, cross, dot]
    ring
  · rw [rodriguesRotate_nominal_y]
  · rw [hcode, rodriguesRotate_nominal_y]
    intro h
    simp only [mul_zero, zero_add] at h
    linarith

end Tilt

section Startup

/-- C9 (the code at program start). The routine `init` never assigns `up`, so
after `init` the world-up vector still has the value of zero-initialised static
storage, `(0, 0, 0)`, and not `(0, 1, 0)`. -/
theorem init_leaves_up_zero :
    (∀ st : State ℝ, (init st).up = st.up)
      ∧ (init (programStart : State ℝ)).up = ⟨0, 0, 0⟩
      ∧ (init (programStart : State ℝ)).up ≠ ⟨0, 1, 0⟩ := by
  refine ⟨fun _ => rfl, rfl, ?_⟩
  intro h
  have hy : (init (programStart : State ℝ)).up.y = 1 := by rw [h]
  have h0 : (init (programStart : State ℝ)).up.y = 0 := rfl
  rw [h0] at hy
  exact zero_ne_one hy

end Startup

section FirstTick

variable {K : Type} [LinearOrderedField K]

theorem init_stencil_three (st : State K) (r : Weights K) :
    stencil (init st).CP 3 r
      = some (combine r ⟨10, 10, 0⟩ ⟨8, 12, -3⟩ ⟨3, 17, -8⟩ ⟨-4, 17, -6⟩) := by
  have hs0 := stencil_natCast (initCP : Fin 18 → Vector3 K) 3 (by omega) (by omega) r
  exact hs0

theorem init_stencil_nine (st : State K) (r : Weights K) :
    stencil (init st).CP 9 r
      = some (combine r ⟨-12, 20, 5⟩ ⟨-7, 30, 5⟩ ⟨-3, 37, 5⟩ ⟨-1, 37, 5⟩) := by
  have hs0 := stencil_natCast (initCP : Fin 18 → Vector3 K) 9 (by omega) (by omega) r
  exact hs0

variable [FloorRing K]

theorem myTimer_init_three (sqrt cos sin : K → K) (st0 st : State K)
    (hCP : st.CP = (init st0).CP) (hW : st.workTotal = (init st0).workTotal)
    (hu : st.globalu = 3) :
    ∃ s : State K, myTimer sqrt cos sin st = some s
      ∧ s.q = ⟨15 / 2, 25 / 2, -10 / 3⟩ ∧ s.qp = ⟨-7 / 2, 7 / 2, -4⟩ ∧ s.qpp = ⟨-3, 3, -2⟩
      ∧ s.speed = sqrt (2 * (9.81 * 37 + 3 + 9.81 * (25 / 2)))
      ∧ s.k = (if sqrt (81 / 2) ≤ 0.01 then 0
          else 5 / (sqrt (81 / 2) * sqrt (81 / 2) * sqrt (81 / 2)))
      ∧ s.up.y = ((1 - cos s.k) * st.n.x * st.n.y - sin s.k * st.n.z)
          + ((1 - cos s.k) * st.n.y * st.n.y + cos s.k)
          + ((1 - cos s.k) * st.n.y * st.n.z + sin s.k * st.n.x)
      ∧ s.cEye = ⟨15 / 2, 25 / 2 * s.up.y + 3, -10 / 3⟩ := by
  have hfl : ⌊st.globalu⌋ = 3 := by
    rw [hu]
    exact Int.floor_ofNat 3
  have hst : ∀ r : Weights K, stencil st.CP ⌊st.globalu⌋ r
      = some (combine r ⟨10, 10, 0⟩ ⟨8, 12, -3⟩ ⟨3, 17, -8⟩ ⟨-4, 17, -6⟩) := by
    intro r
    rw [hfl, hCP]
    exact init_stencil_three st0 r
  obtain ⟨s, hs, hq, hqp, hqpp, hsp, hk, -, hupy, -, heye, -⟩ :=
    myTimer_of_stencil sqrt cos sin st _ _ _ _ hst
  have ht : st.globalu - ((⌊st.globalu⌋ : Int) : K) = 0 := by
    rw [hfl, hu]
    norm_num
  rw [ht] at hq hqp hqpp
  have hq2 : s.q = ⟨15 / 2, 25 / 2, -10 / 3⟩ := by
    rw [hq]
    simp only [combine, weights0, Vector3.mk.injEq]
    norm_num
  have hqp2 : s.qp = ⟨-7 / 2, 7 / 2, -4⟩ := by
    rw [hqp]
    simp only [combine, weights1, Vector3.mk.injEq]
    norm_num
  have hqpp2 : s.qpp = ⟨-3, 3, -2⟩ := by
    rw [hqpp]
    simp only [combine, weights2, Vector3.mk.injEq]
    norm_num
  have hr : s.qp.x * s.qp.x + s.qp.y * s.qp.y + s.qp.z * s.qp.z = 81 / 2 := by
    rw [hqp2]
    norm_num
  have hnum : s.qp.z * s.qpp.x - s.qp.x * s.qpp.z = 5 := by
    rw [hqp2, hqpp2]
    norm_num
  refine ⟨s, hs, hq2, hqp2, hqpp2, ?_, ?_, hupy, ?_⟩
  · rw [hsp, hq2, hW, init_workTotal]
  · rw [hk, hr, hnum]
  · rw [heye, hq2]

theorem myTimer_init_nine (sqrt cos sin : K → K) (st0 st : State K)
    (hCP : st.CP = (init st0).CP) (hW : st.workTotal = (init st0).workTotal)
    (hu : st.globalu = 9) :
    ∃ s : State K, myTimer sqrt cos sin st = some s
      ∧ s.q = ⟨-43 / 6, 59 / 2, 5⟩
      ∧ s.speed = sqrt (2 * (9.81 * 37 + 3 + 9.81 * (59 / 2))) := by
  have hfl : ⌊st.globalu⌋ = 9 := by
    rw [hu]
    exact Int.floor_ofNat 9
  have hst : ∀ r : Weights K, stencil st.CP ⌊st.globalu⌋ r
      = some (combine r ⟨-12, 20, 5⟩ ⟨-7, 30, 5⟩ ⟨-3, 37, 5⟩ ⟨-1, 37, 5⟩) := by
    intro r
    rw [hfl, hCP]
    exact init_stencil_nine st0 r
  obtain ⟨s, hs, hq, -, -, hsp, -⟩ := myTimer_of_stencil sqrt cos sin st _ _ _ _ hst
  have ht : st.globalu - ((⌊st.globalu⌋ : Int) : K) = 0 := by
    rw [hfl, hu]
    norm_num
  rw [ht] at hq
  have hq2 : s.q = ⟨-43 / 6, 59 / 2, 5⟩ := by
    rw [hq]
    simp only [combine, weights0, Vector3.mk.injEq]
    norm_num
  refine ⟨s, hs, hq2, ?_⟩
  rw [hsp, hq2, hW, init_workTotal]

end FirstTick

section Speed

/-- C8 (the code at the failing input). After `init`, the tick at `globalu = 9`
finds the height `q.y = 29.5` and the tick at `globalu = 3` the height
`q.y = 12.5`; the first point is the higher one, and yet the speed computed
there, `sqrt(2 * (workTotal + 9.81 * 29.5))`, is strictly larger than the speed
`sqrt(2 * (workTotal + 9.81 * 12.5))` computed at the lower point. -/
theorem speed_larger_at_higher_point :
    ∃ s1 s2 : State ℝ,
      myTimer Real.sqrt Real.cos Real.sin { init (programStart : State ℝ) with globalu := 9 }
          = some s1
        ∧ myTimer Real.sqrt Real.cos Real.sin { init (programStart : State ℝ) with globalu := 3 }
          = some s2
        ∧ s1.q.y = 59 / 2 ∧ s2.q.y = 25 / 2 ∧ s1.q.y ≥ s2.q.y
        ∧ s1.speed = Real.sqrt (2 * (9.81 * 37 + 3 + 9.81 * (59 / 2)))
        ∧ s2.speed = Real.sqrt (2 * (9.81 * 37 + 3 + 9.81 * (25 / 2)))
        ∧ s2.speed < s1.speed ∧ ¬ (s1.speed ≤ s2.speed) := by
  obtain ⟨s1, h1, hq1, hsp1⟩ := myTimer_init_nine Real.sqrt Real.cos Real.sin
    (programStart : State ℝ) { init (programStart : State ℝ) with globalu := 9 } rfl rfl rfl
  obtain ⟨s2, h2, hq2, -, -, hsp2, -⟩ := myTimer_init_three Real.sqrt Real.cos Real.sin
    (programStart : State ℝ) { init (programStart : State ℝ) with globalu := 3 } rfl rfl rfl
  have hlt : s2.speed < s1.speed := by
    rw [hsp1, hsp2]
    apply Real.sqrt_lt_sqrt
    · norm_num
    · norm_num
  refine ⟨s1, s2, h1, h2, by rw [hq1], by rw [hq2], ?_, hsp1, hsp2, hlt, not_le.mpr hlt⟩
  rw [hq1, hq2]
  norm_num

end Speed

section Camera

variable {K : Type} [LinearOrderedField K] [FloorRing K]

/-- C10 (amended). From every state with `globalu` in `[3, 18)` the timer callback
succeeds and leaves the camera eye at `(q.x, q.y * up.y + 3, q.z)`, where `q` is
the position `calculateQ(globalu, 0)` computes and `up.y` is the value that
`calculateTilt` has just stored in this tick, which depends on `k` and `n` but
not on the previous world-up vector; in particular the eye is
`(q.x, q.y + 3, q.z)` whenever that `up.y` is `1`. -/
theorem cEye_after_tick (sqrt cos sin : K → K) (st : State K) (h0 : 3 ≤ st.globalu)
    (h1 : st.globalu < 18) :
    ∃ pos s : State K, calculateQ st.globalu 0 st = some pos
      ∧ myTimer sqrt cos sin st = some s
      ∧ s.up.y = ((1 - cos s.k) * st.n.x * st.n.y - sin s.k * st.n.z)
          + ((1 - cos s.k) * st.n.y * st.n.y + cos s.k)
          + ((1 - cos s.k) * st.n.y * st.n.z + sin s.k * st.n.x)
      ∧ s.cEye = ⟨pos.q.x, (pos.q.y * s.up.y) + 3, pos.q.z⟩
      ∧ (s.up.y = 1 → s.cEye = ⟨pos.q.x, pos.q.y + 3, pos.q.z⟩) := by
  obtain ⟨hi0, hi1⟩ := floor_mem_of_mem st.globalu h0 h1
  obtain ⟨a, b, c, d, hst⟩ := stencil_of_mem st.CP _ hi0 hi1
  obtain ⟨s, hs, hq, -, -, -, -, -, hupy, -, heye, -⟩ :=
    myTimer_of_stencil sqrt cos sin st _ _ _ _ hst
  have hpos := (calculateQ_of_stencil st.globalu st _ _ _ _ hst).1
  rw [hq] at heye
  refine ⟨_, s, hpos, hs, hupy, heye, ?_⟩
  intro hone
  rw [heye, hone, mul_one]

/-- C10 (as stated). At the first tick after `init` (with `globalu = 3`,
`n = (0,0,0)`) the position is `q = (7.5, 12.5, -10/3)` and the camera eye is
`(7.5, 12.5 * cos k + 3, -10/3)` with `0 < k < 1`, which is not
`(q.x, q.y + 3, q.z)`. -/
theorem cEye_not_lifted_position :
    ∃ pos s : State ℝ, (init (programStart : State ℝ)).globalu = 3
      ∧ calculateQ (init (programStart : State ℝ)).globalu 0 (init programStart) = some pos
      ∧ myTimer Real.sqrt Real.cos Real.sin (init programStart) = some s
      ∧ s.cEye ≠ ⟨pos.q.x, pos.q.y + 3, pos.q.z⟩ := by
  obtain ⟨s, hs, hq, -, -, -, hk, hupy, heye⟩ := myTimer_init_three Real.sqrt Real.cos Real.sin
    (programStart : State ℝ) (init (programStart : State ℝ)) rfl rfl rfl
  refine ⟨_, s, rfl, calculateQ_init_three (programStart : State ℝ), hs, ?_⟩
  have hr6 : (6 : ℝ) < Real.sqrt (81 / 2) := by
    rw [Real.lt_sqrt (by norm_num)]
    norm_num
  have hrr : Real.sqrt (81 / 2) * Real.sqrt (81 / 2) = 81 / 2 :=
    Real.mul_self_sqrt (by norm_num)
  have hkval : s.k = 5 / (Real.sqrt (81 / 2) * Real.sqrt (81 / 2) * Real.sqrt (81 / 2)) := by
    rw [hk, if_neg]
    rw [not_le]
    have : (0.01 : ℝ) < 6 := by norm_num
    linarith
  have hden : (216 : ℝ) < Real.sqrt (81 / 2) * Real.sqrt (81 / 2) * Real.sqrt (81 / 2) := by
    rw [hrr]
    linarith
  have hkpos : 0 < s.k := by
    rw [hkval]
    apply div_pos (by norm_num)
    linarith
  have hklt : s.k < 1 := by
    rw [hkval, div_lt_one (by linarith)]
    linarith
  have hcos : Real.cos s.k ≠ 1 := by
    intro hc
    have h2pi : (6 : ℝ) < 2 * Real.pi := by linarith [Real.pi_gt_three]
    have := (Real.cos_eq_one_iff_of_lt_of_lt (by linarith) (by linarith)).mp hc
    linarith
  have hup : s.up.y = Real.cos s.k := by
    rw [hupy]
    show ((1 - Real.cos s.k) * 0 * 0 - Real.sin s.k * 0)
      + ((1 - Real.cos s.k) * 0 * 0 + Real.cos s.k)
      + ((1 - Real.cos s.k) * 0 * 0 + Real.sin s.k * 0) = Real.cos s.k
    ring
  intro hc
  rw [heye, hup] at hc
  have hy := congrArg Vector3.y hc
  simp only [combine, weights0] at hy
  apply hcos
  linarith

end Camera

section Witnesses

/-- The derivative theorem C1 applied to the first segment, `i = 3`, of the track
that `init` stores. -/
theorem calculateQ_derivative_witness :
    (3 : Int) ≤ 3 ∧ (3 : Int) ≤ 17
      ∧ ∃ fq fqp fqpp : ℝ → Vector3 ℝ,
        (∀ u : ℝ, u ∈ Set.Ico (((3 : Int) : ℝ)) (((3 : Int) : ℝ) + 1) →
            calculateQ u 0 (init (programStart : State ℝ))
              = some { init (programStart : State ℝ) with q := fq u }
          ∧ calculateQ u 1 (init (programStart : State ℝ))
              = some { init (programStart : State ℝ) with qp := fqp u }
          ∧ calculateQ u 2 (init (programStart : State ℝ))
              = some { init (programStart : State ℝ) with qpp := fqpp u })
        ∧ ∀ u : ℝ, u ∈ Set.Ico (((3 : Int) : ℝ)) (((3 : Int) : ℝ) + 1) →
            HasDerivWithinAt (fun s => (fq s).x) (fqp u).x
                (Set.Ico (((3 : Int) : ℝ)) (((3 : Int) : ℝ) + 1)) u
          ∧ HasDerivWithinAt (fun s => (fq s).y) (fqp u).y
                (Set.Ico (((3 : Int) : ℝ)) (((3 : Int) : ℝ) + 1)) u
          ∧ HasDerivWithinAt (fun s => (fq s).z) (fqp u).z
                (Set.Ico (((3 : Int) : ℝ)) (((3 : Int) : ℝ) + 1)) u
          ∧ HasDerivWithinAt (fun s => (fqp s).x) (fqpp u).x
                (Set.Ico (((3 : Int) : ℝ)) (((3 : Int) : ℝ) + 1)) u
          ∧ HasDerivWithinAt (fun s => (fqp s).y) (fqpp u).y
                (Set.Ico (((3 : Int) : ℝ)) (((3 : Int) : ℝ) + 1)) u
          ∧ HasDerivWithinAt (fun s => (fqp s).z) (fqpp u).z
                (Set.Ico (((3 : Int) : ℝ)) (((3 : Int) : ℝ) + 1)) u :=
  ⟨by decide, by decide,
    (calculateQ_derivative (init (programStart : State ℝ)) 3 (by decide) (by decide)).2⟩

/-- The continuity theorem C2 applied to the knot `u = 4`, order `1`, of the track
that `init` stores. -/
theorem calculateQ_knot_continuity_witness :
    (4 : Int) ≤ 4 ∧ (4 : Int) ≤ 17 ∧ ((1 : Int) = 0 ∨ (1 : Int) = 1 ∨ (1 : Int) = 2)
      ∧ (∃ s, calculateQ (((4 : Int) : ℚ)) 1 (init (programStart : State ℚ)) = some s)
      ∧ calculateQ (((4 : Int) : ℚ)) 1 (init (programStart : State ℚ))
          = calculateQAt 4 0 1 (init (programStart : State ℚ))
      ∧ calculateQAt (4 - 1) 1 1 (init (programStart : State ℚ))
          = calculateQ (((4 : Int) : ℚ)) 1 (init (programStart : State ℚ)) :=
  ⟨by decide, by decide, Or.inr (Or.inl rfl),
    calculateQ_knot_continuity (init (programStart : State ℚ)) 4 (by decide) (by decide) 1
      (Or.inr (Or.inl rfl))⟩

/-- The frame theorem C4 applied to the velocity `(1, 0, 0)` and the world-up
vector `(0, 1, 0)`: the frame is `n = (-1, 0, 0)`, with `n.w = n.v = w.v = 0`. -/
theorem calculateNVW_orthonormal_witness :
    ¬ ((1 : ℝ) = 0 ∧ (0 : ℝ) = 0 ∧ (0 : ℝ) = 0)
      ∧ ¬ ((cross (⟨0, 1, 0⟩ : Vector3 ℝ) ⟨-1, -0, -0⟩).x = 0
          ∧ (cross (⟨0, 1, 0⟩ : Vector3 ℝ) ⟨-1, -0, -0⟩).y = 0
          ∧ (cross (⟨0, 1, 0⟩ : Vector3 ℝ) ⟨-1, -0, -0⟩).z = 0)
      ∧ dot (calculateNVW Real.sqrt
            { (programStart : State ℝ) with qp := ⟨1, 0, 0⟩, up := ⟨0, 1, 0⟩ }).n
          (calculateNVW Real.sqrt
            { (programStart : State ℝ) with qp := ⟨1, 0, 0⟩, up := ⟨0, 1, 0⟩ }).w = 0
      ∧ dot (calculateNVW Real.sqrt
            { (programStart : State ℝ) with qp := ⟨1, 0, 0⟩, up := ⟨0, 1, 0⟩ }).n
          (calculateNVW Real.sqrt
            { (programStart : State ℝ) with qp := ⟨1, 0, 0⟩, up := ⟨0, 1, 0⟩ }).v = 0
      ∧ dot (calculateNVW Real.sqrt
            { (programStart : State ℝ) with qp := ⟨1, 0, 0⟩, up := ⟨0, 1, 0⟩ }).w
          (calculateNVW Real.sqrt
            { (programStart : State ℝ) with qp := ⟨1, 0, 0⟩, up := ⟨0, 1, 0⟩ }).v = 0 :=
  ⟨fun h => one_ne_zero h.1,
    fun h => by
      have hz := h.2.2
      simp [cross] at hz,
    (calculateNVW_orthonormal
      { (programStart : State ℝ) with qp := ⟨1, 0, 0⟩, up := ⟨0, 1, 0⟩ }
      (fun h => one_ne_zero h.1)
      (fun h => by
        have hz := h.2.2
        simp [cross] at hz)).2.2.2.2.2.2⟩

/-- The radicand theorem C7 applied to the state after `init` and `u = 3`. -/
theorem speed_radicand_nonneg_witness :
    (3 : ℝ) ≤ 3 ∧ (3 : ℝ) < 18
      ∧ ∃ pos : State ℝ, calculateQ 3 0 (init (programStart : State ℝ)) = some pos
          ∧ 10 ≤ pos.q.y
          ∧ 0 ≤ (init (programStart : State ℝ)).workTotal + 9.81 * pos.q.y
          ∧ ∀ sqrt cos sin : ℝ → ℝ, (init (programStart : State ℝ)).globalu = 3 →
              ∃ s : State ℝ, myTimer sqrt cos sin (init (programStart : State ℝ)) = some s
                ∧ s.speed
                  = sqrt (2 * ((init (programStart : State ℝ)).workTotal + 9.81 * pos.q.y)) :=
  ⟨le_refl _, by norm_num,
    (speed_radicand_nonneg (programStart : State ℝ) (init (programStart : State ℝ)) 3 rfl rfl
      (le_refl _) (by norm_num)).2.2⟩

/-- The camera theorem C10 applied to the state after `init`. -/
theorem cEye_after_tick_witness :
    (3 : ℝ) ≤ (init (programStart : State ℝ)).globalu
      ∧ (init (programStart : State ℝ)).globalu < 18
      ∧ ∃ pos s : State ℝ,
          calculateQ (init (programStart : State ℝ)).globalu 0 (init programStart) = some pos
          ∧ myTimer Real.sqrt Real.cos Real.sin (init programStart) = some s
          ∧ s.up.y = ((1 - Real.cos s.k) * (init (programStart : State ℝ)).n.x
                  * (init (programStart : State ℝ)).n.y
                - Real.sin s.k * (init (programStart : State ℝ)).n.z)
              + ((1 - Real.cos s.k) * (init (programStart : State ℝ)).n.y
                  * (init (programStart : State ℝ)).n.y + Real.cos s.k)
              + ((1 - Real.cos s.k) * (init (programStart : State ℝ)).n.y
                  * (init (programStart : State ℝ)).n.z
                + Real.sin s.k * (init (programStart : State ℝ)).n.x)
          ∧ s.cEye = ⟨pos.q.x, (pos.q.y * s.up.y) + 3, pos.q.z⟩
          ∧ (s.up.y = 1 → s.cEye = ⟨pos.q.x, pos.q.y + 3, pos.q.z⟩) :=
  ⟨le_refl _, show (3 : ℝ) < 18 by norm_num,
    cEye_after_tick Real.sqrt Real.cos Real.sin (init (programStart : State ℝ)) (le_refl _)
      (show (3 : ℝ) < 18 by norm_num)⟩

end Witnesses

end Rollercoaster
